import Mathlib

/-!
# Verification of the Thirteen (Tien Len) game server core

Shallow embedding of the game-logic core of the `13server` repository:
`cardUtils.js` and `gameLogic.js` (combination classification and
comparison), `playHandlers.js` (play / pass resolution), `botLogic.js`
(automated pass resolution), `gameHandlers.js` (game start), and the
connection handler's disconnect auto-pass timer.

Card strings `"RS"` (rank text followed by a suit character) are in
bijection with pairs of a rank and a suit; `parseCard` in the source
splits a card string into exactly these two components, so a card is
modelled as a structure with a `rank` and a `suit` field, and the
`rankValue` / `suitValue` fields produced by `parseCard` become the
functions `cardRankValue` / `cardSuitValue` below.
-/

/-- The thirteen card ranks, in the textual order used by `generateDeck`. -/
inductive Rank where
  | r3 | r4 | r5 | r6 | r7 | r8 | r9 | r10 | rJ | rQ | rK | rA | r2
  deriving DecidableEq, Repr, Fintype

/-- The four suits. -/
inductive Suit where
  | spade | club | diamond | heart
  deriving DecidableEq, Repr, Fintype

/-- Table `RANK_ORDER` from `cardUtils.js` / `gameLogic.js`:
`'3':1, ..., 'A':12, '2':13`. -/
def RANK_ORDER : Rank → Nat
  | .r3 => 1 | .r4 => 2 | .r5 => 3 | .r6 => 4 | .r7 => 5 | .r8 => 6
  | .r9 => 7 | .r10 => 8 | .rJ => 9 | .rQ => 10 | .rK => 11 | .rA => 12
  | .r2 => 13

/-- Table `SUIT_ORDER`: spades 1, clubs 2, diamonds 3, hearts 4. -/
def SUIT_ORDER : Suit → Nat
  | .spade => 1 | .club => 2 | .diamond => 3 | .heart => 4

/-- A card value `(rank, suit)`. -/
structure Card where
  rank : Rank
  suit : Suit
  deriving DecidableEq, Repr, Fintype

/-- Field `rankValue` of `parseCard(card)`. -/
def cardRankValue (c : Card) : Nat := RANK_ORDER c.rank

/-- Field `suitValue` of `parseCard(card)`. -/
def cardSuitValue (c : Card) : Nat := SUIT_ORDER c.suit

/-- The comparator used by `sortCards` (`compareCards` in `gameLogic.js`):
first compare by rank value, and if ranks are equal compare by suit
value. -/
def cardLE (a b : Card) : Prop :=
  cardRankValue a < cardRankValue b ∨
    (cardRankValue a = cardRankValue b ∧ cardSuitValue a ≤ cardSuitValue b)

instance : DecidableRel cardLE := fun a b => by
  unfold cardLE; infer_instance

instance : IsTotal Card cardLE where
  total a b := by
    unfold cardLE
    rcases Nat.lt_trichotomy (cardRankValue a) (cardRankValue b) with h | h | h
    · exact Or.inl (Or.inl h)
    · rcases Nat.le_total (cardSuitValue a) (cardSuitValue b) with h' | h'
      · exact Or.inl (Or.inr ⟨h, h'⟩)
      · exact Or.inr (Or.inr ⟨h.symm, h'⟩)
    · exact Or.inr (Or.inl h)

instance : IsTrans Card cardLE where
  trans a b c hab hbc := by
    unfold cardLE at *
    rcases hab with h1 | ⟨h1, h1'⟩ <;> rcases hbc with h2 | ⟨h2, h2'⟩
    · exact Or.inl (h1.trans h2)
    · exact Or.inl (h2 ▸ h1)
    · exact Or.inl (h1 ▸ h2)
    · exact Or.inr ⟨h1.trans h2, h1'.trans h2'⟩

instance : IsAntisymm Card cardLE where
  antisymm a b hab hba := by
    unfold cardLE at *
    have hr : cardRankValue a = cardRankValue b := by
      rcases hab with h1 | ⟨h1, _⟩ <;> rcases hba with h2 | ⟨h2, _⟩ <;> omega
    have hs : cardSuitValue a = cardSuitValue b := by
      rcases hab with h1 | ⟨h1, h1'⟩ <;> rcases hba with h2 | ⟨h2, h2'⟩ <;> omega
    have hinjr : ∀ r r' : Rank, RANK_ORDER r = RANK_ORDER r' → r = r' := by decide
    have hinjs : ∀ s s' : Suit, SUIT_ORDER s = SUIT_ORDER s' → s = s' := by decide
    cases a; cases b
    have := hinjr _ _ hr
    have := hinjs _ _ hs
    simp_all

/-- Function `sortCards`: sort by rank, then by suit (identical in `cardUtils.js`
and `gameLogic.js`). -/
def sortCards (cards : List Card) : List Card :=
  List.insertionSort cardLE cards

/-- The combination types produced by the two classifiers. -/
inductive CType where
  | single | pair | triple | quad | straight | four_of_kind | three_pairs | four_pairs
  deriving DecidableEq, Repr

/-- A classified combination `{type, cards, rank, length, power}`
(`power` is only attached to the special combinations in
`gameLogic.js`; combinations built elsewhere leave it absent). -/
structure Combination where
  type : CType
  cards : List Card
  rank : Nat
  length : Nat
  power : Option Nat
  deriving DecidableEq, Repr

/-- Check `parsedCards.every(c => c.rankValue === parsedCards[0].rankValue)`. -/
def allSameRank (cards : List Card) : Bool :=
  match cards.head? with
  | none => true
  | some c0 => cards.all (fun c => cardRankValue c = cardRankValue c0)

/-- Value `Math.max(...parsedCards.map(c => c.suitValue))` (the lists it is
applied to are non-empty, so the base value 0 is never the result). -/
def maxSuitValue (cards : List Card) : Nat :=
  cards.foldl (fun a c => max a (cardSuitValue c)) 0

/-- The `isStraight` check: every card's rank value is the previous
card's rank value plus one. -/
def isConsecutiveCards : List Card → Bool
  | [] => true
  | [_] => true
  | a :: b :: rest =>
      (cardRankValue b = cardRankValue a + 1) && isConsecutiveCards (b :: rest)

/-- Check `parsedCards.some(card => card.rankValue === 13)`. -/
def containsTwo (cards : List Card) : Bool :=
  cards.any (fun c => cardRankValue c = 13)

/-- Body of `validateCombination` from `cardUtils.js`, as a function of
`cards.length` and `sortCards(cards)` (every use of the raw input in the
source is `cards.length`). The sequence of early-returning `if`
statements becomes an `if`-`else` chain. -/
def vAux (len : Nat) (sorted : List Card) : Option Combination :=
  if len = 0 then none
  else if len = 1 then
    match sorted.head? with
    | some c => some
        { type := .single
          cards := sorted
          rank := cardRankValue c * 10 + cardSuitValue c
          length := 1
          power := none }
    | none => none
  else if len = 2 ∧ allSameRank sorted = true then
    match sorted with
    | [a, b] => some
        { type := .pair
          cards := sorted
          rank := cardRankValue a * 10 + max (cardSuitValue a) (cardSuitValue b)
          length := 2
          power := none }
    | _ => none
  else if len = 3 ∧ allSameRank sorted = true then
    match sorted.head? with
    | some c0 => some
        { type := .triple
          cards := sorted
          rank := cardRankValue c0 * 10 + maxSuitValue sorted
          length := 3
          power := none }
    | none => none
  else if len = 4 ∧ allSameRank sorted = true then
    match sorted.head? with
    | some c0 => some
        { type := .quad
          cards := sorted
          rank := cardRankValue c0 * 10 + maxSuitValue sorted
          length := 4
          power := none }
    | none => none
  else if 3 ≤ len then
    if containsTwo sorted = true then none
    else if isConsecutiveCards sorted = true then
      match sorted.getLast? with
      | some hc => some
          { type := .straight
            cards := sorted
            rank := cardRankValue hc * 10 + cardSuitValue hc
            length := len
            power := none }
      | none => none
    else none
  else none

/-- Function `validateCombination` from `cardUtils.js`. -/
def validateCombination (cards : List Card) : Option Combination :=
  vAux cards.length (sortCards cards)

/-- Function `canBeatCombination` from `cardUtils.js` (strict same-type
comparison; no cross-type exceptions). -/
def canBeatCombination (newCombo : Combination) (currentCombo : Option Combination) : Bool :=
  match currentCombo with
  | none => true
  | some current =>
    if newCombo.type ≠ current.type then false
    else if newCombo.type = .straight ∧ newCombo.length ≠ current.length then false
    else decide (newCombo.rank > current.rank)

/-- The rank values of the ranks that occur exactly twice among the
cards, in ascending order: `getPairsFromCardsGL` from `gameLogic.js`
groups the cards by rank value and collects the groups of size exactly
2, and the caller then sorts the collected rank values ascending
(`pairRanks.sort((a, b) => a - b)`); only the sorted rank list and the
number of pairs are consumed. -/
def pairRanksGL (cards : List Card) : List Nat :=
  List.insertionSort (fun a b => a ≤ b)
    (((cards.map cardRankValue).dedup).filter
      (fun r => (cards.countP (fun c => cardRankValue c = r)) = 2))

/-- The four-of-a-kind scan in `validateCombination` of `gameLogic.js`:
some rank value groups exactly 4 of the cards. -/
def hasFourGroup (cards : List Card) : Bool :=
  ((cards.map cardRankValue).dedup).any
    (fun r => (cards.countP (fun c => cardRankValue c = r)) = 4)

/-- Check `pairRanks.every((rank, index) => index === 0 || rank ===
pairRanks[index-1] + 1)`: the sorted pair ranks are consecutive. -/
def isConsecutiveNat : List Nat → Bool
  | [] => true
  | [_] => true
  | a :: b :: rest => (b = a + 1) && isConsecutiveNat (b :: rest)

/-- Body of `validateCombination` from `gameLogic.js`, as a function of
`cards.length` and `sortCards(cards)`. Branch order follows the source:
single, pair, triple, quad, four-of-a-kind scan, three pairs, four
pairs, straight. -/
def vAuxGL (len : Nat) (sorted : List Card) : Option Combination :=
  if len = 0 then none
  else if len = 1 then
    match sorted.head? with
    | some c => some
        { type := .single
          cards := sorted
          rank := cardRankValue c * 10 + cardSuitValue c
          length := 1
          power := none }
    | none => none
  else if len = 2 ∧ allSameRank sorted = true then
    match sorted with
    | [a, b] => some
        { type := .pair
          cards := sorted
          rank := cardRankValue a * 10 + max (cardSuitValue a) (cardSuitValue b)
          length := 2
          power := none }
    | _ => none
  else if len = 3 ∧ allSameRank sorted = true then
    match sorted.head? with
    | some c0 => some
        { type := .triple
          cards := sorted
          rank := cardRankValue c0 * 10 + maxSuitValue sorted
          length := 3
          power := none }
    | none => none
  else if len = 4 ∧ allSameRank sorted = true then
    match sorted.head? with
    | some c0 => some
        { type := .quad
          cards := sorted
          rank := cardRankValue c0 * 10 + maxSuitValue sorted
          length := 4
          power := none }
    | none => none
  else if len = 4 ∧ hasFourGroup sorted = true then
    match ((sorted.map cardRankValue).dedup).find?
        (fun r => (sorted.countP (fun c => cardRankValue c = r)) = 4) with
    | some rv => some
        { type := .four_of_kind
          cards := sorted
          rank := rv * 10 + 3
          length := 4
          power := some 2 }
    | none => none
  else if len = 6 ∧ (pairRanksGL sorted).length = 3 ∧
      isConsecutiveNat (pairRanksGL sorted) = true then
    match (pairRanksGL sorted).getLast? with
    | some hr => some
        { type := .three_pairs
          cards := sorted
          rank := hr * 10 + 1
          length := 3
          power := some 1 }
    | none => none
  else if len = 8 ∧ (pairRanksGL sorted).length = 4 ∧
      isConsecutiveNat (pairRanksGL sorted) = true then
    match (pairRanksGL sorted).getLast? with
    | some hr => some
        { type := .four_pairs
          cards := sorted
          rank := hr * 10 + 2
          length := 4
          power := some 3 }
    | none => none
  else if 3 ≤ len then
    if containsTwo sorted = true then none
    else if isConsecutiveCards sorted = true then
      match sorted.getLast? with
      | some hc => some
          { type := .straight
            cards := sorted
            rank := cardRankValue hc * 10 + cardSuitValue hc
            length := len
            power := none }
      | none => none
    else none
  else none

/-- Function `validateCombination` from `gameLogic.js`. -/
def validateCombinationGL (cards : List Card) : Option Combination :=
  vAuxGL cards.length (sortCards cards)

/-- Function `isSpecialCombination` from `gameLogic.js`. -/
def isSpecialCombination (t : CType) : Bool :=
  t = .three_pairs ∨ t = .four_pairs ∨ t = .four_of_kind

/-- The `powerOrder` table inside `compareSpecialCombinations`
(types outside the table get power 0). -/
def powerOrder (t : CType) : Nat :=
  match t with
  | .three_pairs => 1
  | .four_of_kind => 2
  | .four_pairs => 3
  | _ => 0

/-- Function `compareSpecialCombinations` from `gameLogic.js`: same type → by
rank, different types → by power level. -/
def compareSpecialCombinations (newCombo currentCombo : Combination) : Bool :=
  if newCombo.type = currentCombo.type then decide (newCombo.rank > currentCombo.rank)
  else decide (powerOrder newCombo.type > powerOrder currentCombo.type)

/-- Whether the current combination is a single whose card has rank
value 13, i.e. a single "2":
`currentCombo.type === 'single' && parseCard(currentCombo.cards[0]).rankValue === 13`.
(An empty member list — impossible for a classified single — reads as
false.) -/
def isSingleTwo (c : Combination) : Bool :=
  decide (c.type = .single) &&
    (match c.cards.head? with
     | some cc => decide (cardRankValue cc = 13)
     | none => false)

/-- Function `canBeatCombination` from `gameLogic.js`, with the special-case
block for a tabled single "2" and the special-vs-special power
comparison. The early-returning `if`s inside the `isCurrentTwo` block
become conjunctions on an `if`-`else` chain. -/
def canBeatCombinationGL (newCombo : Combination) (currentCombo : Option Combination) : Bool :=
  match currentCombo with
  | none => true
  | some current =>
    if isSingleTwo current = true ∧ newCombo.type = .three_pairs then true
    else if isSingleTwo current = true ∧ newCombo.type = .four_pairs then
      decide (current.cards.length ≤ 2)
    else if isSingleTwo current = true ∧ newCombo.type = .four_of_kind then
      decide (current.cards.length ≤ 2)
    else if isSingleTwo current = true ∧ newCombo.type = .quad then true
    else if newCombo.type ≠ current.type then
      if isSpecialCombination newCombo.type = true ∧
          isSpecialCombination current.type = true then
        compareSpecialCombinations newCombo current
      else false
    else if newCombo.type = .straight ∧ newCombo.length ≠ current.length then false
    else decide (newCombo.rank > current.rank)

/-- A participant as the handlers read it: connection id, hand,
connection status and ready flag (display fields are never consulted by
the game logic). -/
structure Player where
  id : String
  hand : List Card
  connected : Bool
  ready : Bool
  deriving DecidableEq, Repr

/-- The room game state touched by the play/pass/start handlers.
JS `null` becomes `none`; the `round` counter is a `Nat` whose JS
falsy values (`undefined`/`null`/`0`) are represented by `0`, so the
source's `(room.round || 1)` reads as `if round = 0 then 1 else round`.
The auxiliary `lastTurn` record (which stores a wall-clock timestamp)
is not modelled; no handler reads it back. -/
structure Room where
  players : List Player
  pile : List Card
  turn : Option String
  currentCombination : Option Combination
  passes : List String
  lastPlayer : Option String
  round : Nat
  gameStarted : Bool
  winner : Option String
  winnerLastCards : Option (List Card)
  deckShuffled : Bool
  deriving DecidableEq, Repr

/-- JS `Array.prototype.findIndex`: index of the first match, `-1`
when there is none. -/
def findIdxJS (players : List Player) (pid : String) : Int :=
  match players.findIdx? (fun p => p.id = pid) with
  | some i => (i : Int)
  | none => -1

/-- Mutating the player object returned by
`room.players.find(p => p.id === socket.id)` updates the first matching
element of the array in place. -/
def updateFirstPlayer (players : List Player) (pid : String) (f : Player → Player) :
    List Player :=
  match players with
  | [] => []
  | p :: ps => if p.id = pid then f p :: ps else p :: updateFirstPlayer ps pid f

/-- The `for (let i = 1; i < room.players.length; i++)` scan of
`playHandlers.js` (also appearing verbatim in `botLogic.js`): starting
at offset `i` from `currentIdx` and running for `remaining` more
iterations, return the id of the first player not in the passed-set. -/
def scanUnpassed (players : List Player) (passes : List String) (currentIdx : Int) :
    Nat → Nat → Option String
  | _, 0 => none
  | i, remaining + 1 =>
    match players.get? (((currentIdx + (i : Int)) % (players.length : Int)).toNat) with
    | none => none
    | some p =>
      if passes.contains p.id then scanUnpassed players passes currentIdx (i + 1) remaining
      else some p.id

/-- The turn-advance block of `playHandlers.js` (identical in the
`play_cards` and `pass` handlers): move to the next seat, and if that
player has already passed skip forward to the first seat whose player
is not in the passed-set; if every candidate has passed the turn is
left unchanged. (When the player list is empty the source faults
reading `nextPlayer.id` before any assignment to `room.turn`, which is
likewise no state change.) -/
def advanceTurnPH (room : Room) (pid : String) : Room :=
  let n := room.players.length
  let currentIdx := findIdxJS room.players pid
  match room.players.get? (((currentIdx + 1) % (n : Int)).toNat) with
  | none => room
  | some nextPlayer =>
    if room.passes.contains nextPlayer.id then
      match scanUnpassed room.players room.passes currentIdx 1 (n - 1) with
      | some tid => { room with turn := some tid }
      | none => room
    else { room with turn := some nextPlayer.id }

/-- The `play_cards` handler of `playHandlers.js` (the room-lookup
guard lives outside the embedded state transition). -/
def playCards (room : Room) (pid : String) (cards : List Card) : Room :=
  if ¬ (room.gameStarted = true) then room
  else
    match room.players.find? (fun p => p.id = pid) with
    | none => room
    | some player =>
      if ¬ (room.turn = some pid) then room
      else
        match validateCombination cards with
        | none => room
        | some combination =>
          if ¬ (canBeatCombination combination room.currentCombination = true) then room
          else if ¬ (cards.all (fun card => player.hand.contains card)) then room
          else
            let newHand := player.hand.filter (fun c => ¬ cards.contains c)
            let room1 :=
              { room with
                players := updateFirstPlayer room.players pid (fun p => { p with hand := newHand })
                pile := cards
                currentCombination := some combination
                lastPlayer := some pid }
            if newHand.length = 0 then
              { room1 with
                winner := some pid
                winnerLastCards := some cards
                gameStarted := false }
            else advanceTurnPH room1 pid

/-- The `pass` handler of `playHandlers.js`: guard, idempotent insert
into the passed-set, round-reset check against the players still
holding cards, and either the round reset (turn to `lastPlayer` when
set) or the turn advance. The JS comparison
`passedPlayers.length === activePlayers.length - 1` is over JS numbers,
hence the `Int` cast. -/
def humanPass (room : Room) (pid : String) : Room :=
  if ¬ (room.gameStarted = true ∧ room.turn = some pid) then room
  else
    let passes1 := if room.passes.contains pid then room.passes else room.passes ++ [pid]
    let room1 := { room with passes := passes1 }
    let activePlayers := room1.players.filter (fun p => p.hand.length > 0)
    let passedPlayers := activePlayers.filter (fun p => passes1.contains p.id)
    if (passedPlayers.length : Int) = (activePlayers.length : Int) - 1 then
      let room2 :=
        { room1 with
          currentCombination := none
          passes := []
          pile := []
          round := (if room1.round = 0 then 1 else room1.round) + 1 }
      match room2.lastPlayer with
      | some lp => { room2 with turn := some lp }
      | none => room2
    else advanceTurnPH room1 pid

/-- The scan loop of `handleBotPass` in `botLogic.js` (textually the
same loop as in `playHandlers.js`, transcribed independently for the
equivalence claim). -/
def scanUnpassedBL (players : List Player) (passes : List String) (currentIdx : Int) :
    Nat → Nat → Option String
  | _, 0 => none
  | i, remaining + 1 =>
    match players.get? (((currentIdx + (i : Int)) % (players.length : Int)).toNat) with
    | none => none
    | some p =>
      if passes.contains p.id then scanUnpassedBL players passes currentIdx (i + 1) remaining
      else some p.id

/-- The turn-advance block of `handleBotPass` in `botLogic.js`. -/
def advanceTurnBL (room : Room) (pid : String) : Room :=
  let n := room.players.length
  let currentIdx := findIdxJS room.players pid
  match room.players.get? (((currentIdx + 1) % (n : Int)).toNat) with
  | none => room
  | some nextPlayer =>
    if room.passes.contains nextPlayer.id then
      match scanUnpassedBL room.players room.passes currentIdx 1 (n - 1) with
      | some tid => { room with turn := some tid }
      | none => room
    else { room with turn := some nextPlayer.id }

/-- Function `handleBotPass` from `botLogic.js`: the same pass resolution as the
human handler but with no game-started/turn guard (the callers schedule
it only on the bot's turn); bot re-scheduling and broadcasting are side
effects outside the room state. -/
def botPass (room : Room) (pid : String) : Room :=
  let passes1 := if room.passes.contains pid then room.passes else room.passes ++ [pid]
  let room1 := { room with passes := passes1 }
  let activePlayers := room1.players.filter (fun p => p.hand.length > 0)
  let passedPlayers := activePlayers.filter (fun p => passes1.contains p.id)
  if (passedPlayers.length : Int) = (activePlayers.length : Int) - 1 then
    let room2 :=
      { room1 with
        currentCombination := none
        passes := []
        pile := []
        round := (if room1.round = 0 then 1 else room1.round) + 1 }
    match room2.lastPlayer with
    | some lp => { room2 with turn := some lp }
    | none => room2
  else advanceTurnBL room1 pid

/-- The connected-player scan of the disconnect auto-pass block
(`setupConnectionHandlers`): the first player at offset ≥ `i` from
`currentIdx` who is connected. -/
def scanConnected (players : List Player) (currentIdx : Int) :
    Nat → Nat → Option String
  | _, 0 => none
  | i, remaining + 1 =>
    match players.get? (((currentIdx + (i : Int)) % (players.length : Int)).toNat) with
    | none => none
    | some p =>
      if p.connected then some p.id
      else scanConnected players currentIdx (i + 1) remaining

/-- The turn-advance block of the disconnect auto-pass: skip
disconnected players, with an explicit fallback to the immediately next
player when no connected player is found. -/
def advanceTurnConn (room : Room) (pid : String) : Room :=
  let n := room.players.length
  let currentIdx := findIdxJS room.players pid
  match room.players.get? (((currentIdx + 1) % (n : Int)).toNat) with
  | none => room
  | some nextPlayer =>
    if ¬ (nextPlayer.connected = true) then
      match scanConnected room.players currentIdx 1 (n - 1) with
      | some tid => { room with turn := some tid }
      | none => { room with turn := some nextPlayer.id }
    else { room with turn := some nextPlayer.id }

/-- The disconnect grace-timer callback of `setupConnectionHandlers`
(the auto-pass variant): when it fires it re-checks that the player is
still present, still disconnected and still the current actor, and only
then synthesizes a pass — idempotent insert into the passed-set, the
same round-reset check as the pass handlers, and otherwise a turn
advance that skips disconnected players. -/
def autoPassCb (room : Room) (pid : String) : Room :=
  match room.players.find? (fun p => p.id = pid) with
  | none => room
  | some currentPlayer =>
    if ¬ (currentPlayer.connected = false ∧ room.turn = some pid) then room
    else
      let passes1 := if room.passes.contains pid then room.passes else room.passes ++ [pid]
      let room1 := { room with passes := passes1 }
      let activePlayers := room1.players.filter (fun p => p.hand.length > 0)
      let passedPlayers := activePlayers.filter (fun p => passes1.contains p.id)
      if (passedPlayers.length : Int) = (activePlayers.length : Int) - 1 then
        let room2 :=
          { room1 with
            currentCombination := none
            passes := []
            pile := []
            round := (if room1.round = 0 then 1 else room1.round) + 1 }
        match room2.lastPlayer with
        | some lp => { room2 with turn := some lp }
        | none => room2
      else advanceTurnConn room1 pid

/-- The `start_game` handler of `gameHandlers.js` (first variant: every
connected player must be ready): `none` models the early returns that
leave the room untouched, `some` the reset room that is broadcast. -/
def startGame (room : Room) : Option Room :=
  let connectedPlayers := room.players.filter (fun p => p.connected)
  if connectedPlayers.length < 2 then none
  else if ¬ (connectedPlayers.all (fun p => p.ready) = true) then none
  else some
    { room with
      gameStarted := true
      pile := []
      currentCombination := none
      winner := none
      passes := []
      lastPlayer := none
      turn := none
      round := 1
      deckShuffled := true
      players := room.players.map (fun p => { p with hand := [], ready := false }) }

/-- Function `generateDeck` from `cardUtils.js`: for each suit (spades, clubs,
diamonds, hearts) push one card of each rank (3..A, 2). -/
def generateDeck : List Card :=
  ([Suit.spade, Suit.club, Suit.diamond, Suit.heart].map (fun suit =>
    [Rank.r3, .r4, .r5, .r6, .r7, .r8, .r9, .r10, .rJ, .rQ, .rK, .rA, .r2].map
      (fun rank => Card.mk rank suit))).flatten

/-- The dealing loop of `dealCards` in `cardUtils.js`: iterate over the
connected players in array order, giving the `m`-th of them
`deck.slice(13*m, 13*m + 13)` as its hand (`cardIndex` advances by 13
per player dealt to). -/
def dealToConnected (deck : List Card) : List Player → Nat → List Player
  | [], _ => []
  | p :: ps, m =>
    if p.connected then
      { p with hand := (deck.drop (13 * m)).take 13 } :: dealToConnected deck ps (m + 1)
    else p :: dealToConnected deck ps m

/-- Function `dealCards` from `cardUtils.js`, with the freshly shuffled deck as
a parameter: `shuffleDeck` is an in-place Fisher–Yates driven by
`Math.random()`, so the theorems below quantify over every permutation
of `generateDeck`. -/
def dealCards (deck : List Card) (room : Room) : Room :=
  { room with players := dealToConnected deck room.players 0 }

/-- Concrete two-player room for the pass/round-reset counterexample:
"A" both holds the turn and is the recorded last player (it played the
combination that ended the previous round), and passes on an empty
pile. -/
def c2Room : Room :=
  { players := [⟨"A", [⟨Rank.r3, Suit.spade⟩], true, false⟩,
                ⟨"B", [⟨Rank.r4, Suit.spade⟩], true, false⟩]
    pile := [], turn := some "A", currentCombination := none, passes := []
    lastPlayer := some "A", round := 2, gameStarted := true, winner := none
    winnerLastCards := none, deckShuffled := false }

/-- Concrete room for the turn-advance counterexample: three players,
the middle one ("B") disconnected, nobody has passed, and the
connected "A" holds the turn. -/
def c3Room : Room :=
  { players := [⟨"A", [⟨Rank.r3, Suit.spade⟩], true, false⟩,
                ⟨"B", [⟨Rank.r4, Suit.spade⟩], false, false⟩,
                ⟨"C", [⟨Rank.r5, Suit.spade⟩], true, false⟩]
    pile := [], turn := some "A", currentCombination := none, passes := []
    lastPlayer := none, round := 1, gameStarted := true, winner := none
    winnerLastCards := none, deckShuffled := false }

/-- Concrete room for the stale-timer counterexample: two players with
cards, the disconnected "A" is both current actor and last player. -/
def c9Room : Room :=
  { players := [⟨"A", [⟨Rank.r3, Suit.spade⟩], false, false⟩,
                ⟨"B", [⟨Rank.r4, Suit.spade⟩], true, false⟩]
    pile := [⟨Rank.r5, Suit.spade⟩], turn := some "A", currentCombination := none
    passes := [], lastPlayer := some "A", round := 1, gameStarted := true
    winner := none, winnerLastCards := none, deckShuffled := false }

/-- C7: a `play_cards` request that fails any guard — game not started,
actor unknown, not the actor's turn, unclassifiable card set, unable to
beat the tabled combination, or cards not all held — leaves the room
exactly as it was. -/
theorem playCards_rejected_no_change (room : Room) (pid : String) (cards : List Card)
    (h : room.gameStarted = false ∨ room.turn ≠ some pid ∨
      validateCombination cards = none ∨
      (∀ comb, validateCombination cards = some comb →
        canBeatCombination comb room.currentCombination = false) ∨
      (∀ player, room.players.find? (fun p => p.id = pid) = some player →
        cards.all (fun card => player.hand.contains card) = false)) :
    playCards room pid cards = room := by
  unfold playCards
  split
  · rfl
  next hgs =>
    split
    · rfl
    next player hfind =>
      split
      · rfl
      next hturn =>
        split
        · rfl
        next comb hval =>
          split
          · rfl
          next hcb =>
            split
            · rfl
            next hall =>
              exfalso
              rcases h with h | h | h | h | h
              · simp [h] at hgs
              · exact hturn h
              · rw [h] at hval; exact Option.noConfusion hval
              · have := h comb hval
                simp [this] at hcb
              · have hx := h player hfind
                rw [not_not] at hall
                rw [hx] at hall
                exact Bool.noConfusion hall

theorem playCards_rejected_witness :
    playCards
      { players := [⟨"A", [⟨Rank.r3, Suit.spade⟩], true, false⟩]
        pile := [], turn := some "B", currentCombination := none, passes := []
        lastPlayer := none, round := 1, gameStarted := true, winner := none
        winnerLastCards := none, deckShuffled := false } "A" [⟨Rank.r3, Suit.spade⟩] =
      { players := [⟨"A", [⟨Rank.r3, Suit.spade⟩], true, false⟩]
        pile := [], turn := some "B", currentCombination := none, passes := []
        lastPlayer := none, round := 1, gameStarted := true, winner := none
        winnerLastCards := none, deckShuffled := false } :=
  playCards_rejected_no_change _ _ _ (Or.inr (Or.inl (by decide)))

/-- C8: `start_game` succeeds exactly when at least two connected
players are present and every connected player is ready, and on
success clears the pile, the current combination, the passed-set, the
turn and the winner, resets the round counter to 1, and empties every
player's hand and ready flag. -/
theorem startGame_spec (room : Room) :
    ((startGame room).isSome = true ↔
      2 ≤ (room.players.filter (fun p => p.connected)).length ∧
        (room.players.filter (fun p => p.connected)).all (fun p => p.ready) = true) ∧
    (∀ room', startGame room = some room' →
      room'.pile = [] ∧ room'.currentCombination = none ∧ room'.passes = [] ∧
      room'.round = 1 ∧ room'.turn = none ∧ room'.winner = none ∧
      room'.lastPlayer = none ∧ room'.gameStarted = true ∧
      ∀ p ∈ room'.players, p.hand = [] ∧ p.ready = false) := by
  constructor
  · dsimp only [startGame]
    split
    next hlt =>
      simp only [Option.isSome_none, Bool.false_eq_true, false_iff]
      intro h2
      exact absurd h2.1 (by omega)
    next hge =>
      split
      next hnr =>
        simp only [Option.isSome_none, Bool.false_eq_true, false_iff]
        intro h2
        exact hnr h2.2
      next hr =>
        simp only [Option.isSome_some, true_iff]
        exact ⟨by omega, not_not.mp hr⟩
  · intro room' hs
    dsimp only [startGame] at hs
    split at hs
    · exact Option.noConfusion hs
    split at hs
    · exact Option.noConfusion hs
    · injection hs with hs
      subst hs
      refine ⟨rfl, rfl, rfl, rfl, rfl, rfl, rfl, rfl, ?_⟩
      intro p hp
      simp only [List.mem_map] at hp
      obtain ⟨q, _, rfl⟩ := hp
      exact ⟨rfl, rfl⟩

theorem startGame_spec_witness :
    (startGame
      { players := [⟨"A", [], true, true⟩, ⟨"B", [], true, true⟩]
        pile := [⟨Rank.r3, Suit.spade⟩], turn := some "A", currentCombination := none
        passes := ["B"], lastPlayer := some "A", round := 7, gameStarted := false
        winner := some "A", winnerLastCards := none, deckShuffled := false }).isSome = true := by
  have h := (startGame_spec
    { players := [⟨"A", [], true, true⟩, ⟨"B", [], true, true⟩]
      pile := [⟨Rank.r3, Suit.spade⟩], turn := some "A", currentCombination := none
      passes := ["B"], lastPlayer := some "A", round := 7, gameStarted := false
      winner := some "A", winnerLastCards := none, deckShuffled := false }).1
  exact h.mpr (by decide)

theorem scanUnpassedBL_eq_scanUnpassed (players : List Player) (passes : List String)
    (currentIdx : Int) :
    ∀ remaining i, scanUnpassedBL players passes currentIdx i remaining =
      scanUnpassed players passes currentIdx i remaining := by
  intro remaining
  induction remaining with
  | zero => intro i; rfl
  | succ r ih =>
    intro i
    unfold scanUnpassedBL scanUnpassed
    split
    · rfl
    · split
      · exact ih (i + 1)
      · rfl

theorem advanceTurnBL_eq_advanceTurnPH (room : Room) (pid : String) :
    advanceTurnBL room pid = advanceTurnPH room pid := by
  unfold advanceTurnBL advanceTurnPH
  simp only [scanUnpassedBL_eq_scanUnpassed]

/-- C4: on any room state where the game is running and it is the
actor's turn, the human `pass` handler and the bot pass resolution
produce identical room states — there is a single pass-resolution
algorithm. -/
theorem humanPass_eq_botPass (room : Room) (pid : String)
    (hgs : room.gameStarted = true) (ht : room.turn = some pid) :
    humanPass room pid = botPass room pid := by
  unfold humanPass botPass
  rw [if_neg (by simp [hgs, ht])]
  simp only [advanceTurnBL_eq_advanceTurnPH]

theorem humanPass_eq_botPass_witness :
    humanPass
      { players := [⟨"A", [⟨Rank.r3, Suit.spade⟩], true, false⟩,
                    ⟨"B", [⟨Rank.r4, Suit.spade⟩], true, false⟩,
                    ⟨"C", [⟨Rank.r5, Suit.spade⟩], true, false⟩]
        pile := [⟨Rank.r6, Suit.spade⟩], turn := some "B"
        currentCombination := none, passes := ["A"], lastPlayer := some "A"
        round := 1, gameStarted := true, winner := none
        winnerLastCards := none, deckShuffled := false } "B" =
    botPass
      { players := [⟨"A", [⟨Rank.r3, Suit.spade⟩], true, false⟩,
                    ⟨"B", [⟨Rank.r4, Suit.spade⟩], true, false⟩,
                    ⟨"C", [⟨Rank.r5, Suit.spade⟩], true, false⟩]
        pile := [⟨Rank.r6, Suit.spade⟩], turn := some "B"
        currentCombination := none, passes := ["A"], lastPlayer := some "A"
        round := 1, gameStarted := true, winner := none
        winnerLastCards := none, deckShuffled := false } "B" :=
  humanPass_eq_botPass _ _ rfl rfl

/-- C2 counterexample: the pass by "A" reaches the round-reset
threshold (1 passed of 2 active), the round resets — yet the new
current actor is "A" itself, the participant who just passed, because
"A" is also the last participant who played. -/
theorem humanPass_round_reset_cex :
    (humanPass c2Room "A").passes = [] ∧
    (humanPass c2Room "A").pile = [] ∧
    (humanPass c2Room "A").round = c2Room.round + 1 ∧
    (humanPass c2Room "A").turn = some "A" := by
  refine ⟨?_, ?_, ?_, ?_⟩ <;> rfl

/-- C2 (amended): when a pass by the current actor brings the passed
count among players still holding cards to exactly (active − 1), the
pile, current combination and passed-set are cleared, the round
increments by exactly one, and the turn goes to the recorded last
player — who is usually, but not necessarily, different from the
passer. -/
theorem humanPass_round_reset (room : Room) (pid lp : String)
    (hgs : room.gameStarted = true) (ht : room.turn = some pid)
    (hlp : room.lastPlayer = some lp) (hr : 1 ≤ room.round)
    (hcond : (((room.players.filter (fun p => p.hand.length > 0)).filter
        (fun p => (if room.passes.contains pid then room.passes
                   else room.passes ++ [pid]).contains p.id)).length : Int) =
      ((room.players.filter (fun p => p.hand.length > 0)).length : Int) - 1) :
    (humanPass room pid).pile = [] ∧
    (humanPass room pid).currentCombination = none ∧
    (humanPass room pid).passes = [] ∧
    (humanPass room pid).round = room.round + 1 ∧
    (humanPass room pid).turn = some lp := by
  unfold humanPass
  rw [if_neg (by simp [hgs, ht])]
  dsimp only
  rw [if_pos hcond, hlp]
  refine ⟨rfl, rfl, rfl, ?_, rfl⟩
  have : ¬ (room.round = 0) := by omega
  simp [this]

theorem humanPass_round_reset_witness :
    (humanPass
      { players := [⟨"A", [⟨Rank.r3, Suit.spade⟩], true, false⟩,
                    ⟨"B", [⟨Rank.r4, Suit.spade⟩], true, false⟩,
                    ⟨"C", [⟨Rank.r5, Suit.spade⟩], true, false⟩]
        pile := [⟨Rank.r5, Suit.club⟩], turn := some "A"
        currentCombination := none, passes := ["B"], lastPlayer := some "C"
        round := 1, gameStarted := true, winner := none
        winnerLastCards := none, deckShuffled := false } "A").round = 2 ∧
    (humanPass
      { players := [⟨"A", [⟨Rank.r3, Suit.spade⟩], true, false⟩,
                    ⟨"B", [⟨Rank.r4, Suit.spade⟩], true, false⟩,
                    ⟨"C", [⟨Rank.r5, Suit.spade⟩], true, false⟩]
        pile := [⟨Rank.r5, Suit.club⟩], turn := some "A"
        currentCombination := none, passes := ["B"], lastPlayer := some "C"
        round := 1, gameStarted := true, winner := none
        winnerLastCards := none, deckShuffled := false } "A").turn = some "C" := by
  have h := humanPass_round_reset
    { players := [⟨"A", [⟨Rank.r3, Suit.spade⟩], true, false⟩,
                  ⟨"B", [⟨Rank.r4, Suit.spade⟩], true, false⟩,
                  ⟨"C", [⟨Rank.r5, Suit.spade⟩], true, false⟩]
      pile := [⟨Rank.r5, Suit.club⟩], turn := some "A"
      currentCombination := none, passes := ["B"], lastPlayer := some "C"
      round := 1, gameStarted := true, winner := none
      winnerLastCards := none, deckShuffled := false } "A" "C"
    rfl rfl rfl (by decide) (by decide)
  exact ⟨h.2.2.2.1, h.2.2.2.2⟩

theorem advanceTurnConn_preserves (room : Room) (pid : String) :
    (advanceTurnConn room pid).players = room.players ∧
    (advanceTurnConn room pid).passes = room.passes ∧
    (advanceTurnConn room pid).pile = room.pile ∧
    (advanceTurnConn room pid).currentCombination = room.currentCombination ∧
    (advanceTurnConn room pid).round = room.round := by
  unfold advanceTurnConn
  dsimp only
  split
  · exact ⟨rfl, rfl, rfl, rfl, rfl⟩
  · split
    · split
      · exact ⟨rfl, rfl, rfl, rfl, rfl⟩
      · exact ⟨rfl, rfl, rfl, rfl, rfl⟩
    · exact ⟨rfl, rfl, rfl, rfl, rfl⟩

/-- C9 (amended): the grace-timer callback (1) leaves the room
untouched unless the actor is still present, still disconnected and
still the current actor; (2) under that guard it performs exactly one
round reset or one turn advance, never removes or alters a player, and
inserts the actor into the passed-set at most once (an actor already in
the passed-set is not added again); and (3) a second stale firing is a
no-op whenever the first firing left somebody else as the current
actor. (When the first firing's round reset hands the turn back to the
still-disconnected actor, the guard holds again and a stale timer fires
again — see the counterexample.) -/
theorem autoPassCb_spec :
    (∀ room pid, (room.players.find? (fun p => p.id = pid) = none ∨
        (∃ cp, room.players.find? (fun p => p.id = pid) = some cp ∧ cp.connected = true) ∨
        room.turn ≠ some pid) →
      autoPassCb room pid = room) ∧
    (∀ room pid cp, room.players.find? (fun p => p.id = pid) = some cp →
      cp.connected = false → room.turn = some pid →
      (autoPassCb room pid).players = room.players ∧
      ((autoPassCb room pid).passes = [] ∧ (autoPassCb room pid).pile = [] ∧
        (autoPassCb room pid).currentCombination = none ∧
        (autoPassCb room pid).round = (if room.round = 0 then 1 else room.round) + 1
       ∨
       (autoPassCb room pid).passes =
          (if room.passes.contains pid then room.passes else room.passes ++ [pid]) ∧
        (autoPassCb room pid).pile = room.pile ∧
        (autoPassCb room pid).currentCombination = room.currentCombination ∧
        (autoPassCb room pid).round = room.round) ∧
      (room.passes.contains pid = true →
        (autoPassCb room pid).passes = [] ∨ (autoPassCb room pid).passes = room.passes)) ∧
    (∀ room pid, (autoPassCb room pid).turn ≠ some pid →
      autoPassCb (autoPassCb room pid) pid = autoPassCb room pid) := by
  have hguard : ∀ room pid, (room.players.find? (fun p => p.id = pid) = none ∨
      (∃ cp, room.players.find? (fun p => p.id = pid) = some cp ∧ cp.connected = true) ∨
      room.turn ≠ some pid) → autoPassCb room pid = room := by
    intro room pid h
    unfold autoPassCb
    split
    · rfl
    next cp hfind =>
      rw [if_pos]
      intro ⟨hconn, hturn⟩
      rcases h with h | ⟨cp', hcp', hconn'⟩ | h
      · rw [h] at hfind; exact Option.noConfusion hfind
      · rw [hfind] at hcp'
        injection hcp' with hcp'
        rw [← hcp'] at hconn'
        rw [hconn] at hconn'
        exact Bool.noConfusion hconn'
      · exact h hturn
  refine ⟨hguard, ?_, ?_⟩
  · intro room pid cp hfind hconn hturn
    have hstep : autoPassCb room pid =
        (if ((((room.players.filter (fun p => p.hand.length > 0)).filter
            (fun p => (if room.passes.contains pid then room.passes
                       else room.passes ++ [pid]).contains p.id)).length : Int) =
          ((room.players.filter (fun p => p.hand.length > 0)).length : Int) - 1) then
          (match room.lastPlayer with
           | some lp =>
              { room with
                currentCombination := none
                passes := []
                pile := []
                round := (if room.round = 0 then 1 else room.round) + 1
                turn := some lp }
           | none =>
              { room with
                currentCombination := none
                passes := []
                pile := []
                round := (if room.round = 0 then 1 else room.round) + 1 })
         else advanceTurnConn
            { room with
              passes := (if room.passes.contains pid then room.passes
                         else room.passes ++ [pid]) } pid) := by
      unfold autoPassCb
      rw [hfind]
      dsimp only []
      rw [if_neg (by simp [hconn, hturn])]
    rw [hstep]
    by_cases hcond : ((((room.players.filter (fun p => p.hand.length > 0)).filter
            (fun p => (if room.passes.contains pid then room.passes
                       else room.passes ++ [pid]).contains p.id)).length : Int) =
          ((room.players.filter (fun p => p.hand.length > 0)).length : Int) - 1)
    · rw [if_pos hcond]
      cases hlp : room.lastPlayer with
      | some lp => exact ⟨rfl, Or.inl ⟨rfl, rfl, rfl, rfl⟩, fun _ => Or.inl rfl⟩
      | none => exact ⟨rfl, Or.inl ⟨rfl, rfl, rfl, rfl⟩, fun _ => Or.inl rfl⟩
    · rw [if_neg hcond]
      have hp := advanceTurnConn_preserves
        { room with
          passes := (if room.passes.contains pid then room.passes
                     else room.passes ++ [pid]) } pid
      refine ⟨hp.1, Or.inr ⟨hp.2.1, hp.2.2.1, hp.2.2.2.1, hp.2.2.2.2⟩, ?_⟩
      intro hc
      refine Or.inr ?_
      rw [hp.2.1]
      simp only [hc, if_true]
  · intro room pid hne
    exact hguard _ pid (Or.inr (Or.inr hne))

/-- C9 counterexample: the first firing passes for the disconnected
"A" and resets the round, but the reset hands the turn back to "A"
(the recorded last player); the guard therefore still holds and a
second stale timer fires again, mutating the room a second time — the
claimed "never duplicated by a second stale timer" fails. -/
theorem autoPassCb_stale_cex :
    ((c9Room.players.find? (fun p => p.id = "A")).map Player.connected = some false) ∧
    c9Room.turn = some "A" ∧
    (autoPassCb c9Room "A").round = 2 ∧
    (autoPassCb c9Room "A").turn = some "A" ∧
    (((autoPassCb c9Room "A").players.find? (fun p => p.id = "A")).map Player.connected
      = some false) ∧
    (autoPassCb (autoPassCb c9Room "A") "A").round = 3 := by
  refine ⟨?_, ?_, ?_, ?_, ?_, ?_⟩ <;> rfl

theorem autoPassCb_spec_witness :
    (autoPassCb c9Room "A").players = c9Room.players :=
  (autoPassCb_spec.2.1 c9Room "A" ⟨"A", [⟨Rank.r3, Suit.spade⟩], false, false⟩
    rfl rfl rfl).1

theorem toNat_add_mod (a b n : Nat) :
    (((a : Int) + (b : Int)) % ((n : Nat) : Int)).toNat = (a + b) % n := by
  rw [show ((a : Int) + (b : Int)) = (((a + b : Nat) : Nat) : Int) by push_cast; ring]
  rw [← Int.natCast_mod]
  exact Int.toNat_natCast _

theorem toNat_add_one_mod (a n : Nat) :
    (((a : Int) + 1) % ((n : Nat) : Int)).toNat = (a + 1) % n := by
  have := toNat_add_mod a 1 n
  simpa using this

theorem scanUnpassed_finds (players : List Player) (passes : List String) (ci : Nat)
    (hn : 0 < players.length) :
    ∀ (remaining i k : Nat) (p : Player), i ≤ k → k < i + remaining →
      players.get? ((ci + k) % players.length) = some p →
      passes.contains p.id = false →
      (∀ m q, i ≤ m → m < k → players.get? ((ci + m) % players.length) = some q →
        passes.contains q.id = true) →
      scanUnpassed players passes (ci : Int) i remaining = some p.id := by
  intro remaining
  induction remaining with
  | zero => intro i k p hik hk _ _ _; omega
  | succ r ih =>
    intro i k p hik hk hp hnp hmin
    unfold scanUnpassed
    rw [toNat_add_mod ci i players.length]
    rcases Nat.eq_or_lt_of_le hik with rfl | hlt
    · rw [hp]
      try dsimp only []
      rw [hnp]
      rfl
    · have hidx : (ci + i) % players.length < players.length := Nat.mod_lt _ hn
      have hq : players.get? ((ci + i) % players.length) =
          some (players.get ⟨(ci + i) % players.length, hidx⟩) := List.get?_eq_get hidx
      rw [hq]
      try dsimp only []
      rw [hmin i _ le_rfl hlt hq]
      try dsimp only []
      exact ih (i + 1) k p hlt (by omega) hp hnp
        (fun m q hm1 hm2 hgm => hmin m q (by omega) hm2 hgm)

theorem scanUnpassed_none (players : List Player) (passes : List String) (ci : Nat)
    (hn : 0 < players.length) :
    ∀ (remaining i : Nat),
      (∀ m q, i ≤ m → m < i + remaining →
        players.get? ((ci + m) % players.length) = some q →
        passes.contains q.id = true) →
      scanUnpassed players passes (ci : Int) i remaining = none := by
  intro remaining
  induction remaining with
  | zero => intro i _; rfl
  | succ r ih =>
    intro i hall
    unfold scanUnpassed
    rw [toNat_add_mod ci i players.length]
    have hidx : (ci + i) % players.length < players.length := Nat.mod_lt _ hn
    have hq : players.get? ((ci + i) % players.length) =
        some (players.get ⟨(ci + i) % players.length, hidx⟩) := List.get?_eq_get hidx
    rw [hq]
    try dsimp only []
    rw [hall i _ le_rfl (by omega) hq]
    try dsimp only []
    exact ih (i + 1) (fun m q hm1 hm2 hgm => hall m q (by omega) (by omega) hgm)

/-- C3 (amended): the turn advance used by both the `play_cards` and
`pass` handlers moves the turn to the player at the smallest cyclic
offset `k ∈ [1, N-1]` from the acting seat whose id is not in the
passed-set — connection status is never consulted — and leaves the turn
unchanged when every other seat has passed. -/
theorem advanceTurnPH_first_unpassed (room : Room) (pid : String) (i : Nat)
    (hi : room.players.findIdx? (fun p => p.id = pid) = some i) :
    (∀ (k : Nat) (p : Player), 1 ≤ k → k < room.players.length →
      room.players.get? ((i + k) % room.players.length) = some p →
      room.passes.contains p.id = false →
      (∀ m q, 1 ≤ m → m < k →
        room.players.get? ((i + m) % room.players.length) = some q →
        room.passes.contains q.id = true) →
      advanceTurnPH room pid = { room with turn := some p.id }) ∧
    (2 ≤ room.players.length →
      (∀ m q, 1 ≤ m → m < room.players.length →
        room.players.get? ((i + m) % room.players.length) = some q →
        room.passes.contains q.id = true) →
      advanceTurnPH room pid = room) := by
  have hfidx : findIdxJS room.players pid = (i : Int) := by
    unfold findIdxJS; rw [hi]
  constructor
  · intro k p hk1 hk2 hp hnp hmin
    have hn : 0 < room.players.length := Nat.lt_of_le_of_lt (Nat.zero_le _) hk2
    unfold advanceTurnPH
    rw [hfidx]
    try dsimp only []
    rw [toNat_add_one_mod i room.players.length]
    have hidx1 : (i + 1) % room.players.length < room.players.length := Nat.mod_lt _ hn
    have hq1 : room.players.get? ((i + 1) % room.players.length) =
        some (room.players.get ⟨(i + 1) % room.players.length, hidx1⟩) :=
      List.get?_eq_get hidx1
    rw [hq1]
    try dsimp only []
    rcases Nat.eq_or_lt_of_le hk1 with rfl | hk1'
    · rw [hq1] at hp
      injection hp with hp
      rw [hp, hnp]
      rfl
    · rw [hmin 1 _ le_rfl hk1' hq1]
      try dsimp only []
      rw [scanUnpassed_finds room.players room.passes i hn (room.players.length - 1)
        1 k p hk1 (by omega) hp hnp
        (fun m q hm1 hm2 hgm => hmin m q hm1 hm2 hgm)]
      rfl
  · intro hn2 hall
    have hn : 0 < room.players.length := by omega
    unfold advanceTurnPH
    rw [hfidx]
    try dsimp only []
    rw [toNat_add_one_mod i room.players.length]
    have hidx1 : (i + 1) % room.players.length < room.players.length := Nat.mod_lt _ hn
    have hq1 : room.players.get? ((i + 1) % room.players.length) =
        some (room.players.get ⟨(i + 1) % room.players.length, hidx1⟩) :=
      List.get?_eq_get hidx1
    rw [hq1]
    try dsimp only []
    rw [hall 1 _ le_rfl (by omega) hq1]
    try dsimp only []
    rw [scanUnpassed_none room.players room.passes i hn (room.players.length - 1) 1
      (fun m q hm1 hm2 hgm => hall m q hm1 (by omega) hgm)]
    rfl

theorem sortCards_eq_of_perm {cs cs' : List Card} (h : cs.Perm cs') :
    sortCards cs = sortCards cs' :=
  List.eq_of_perm_of_sorted
    ((List.perm_insertionSort cardLE cs).trans
      (h.trans (List.perm_insertionSort cardLE cs').symm))
    (List.sorted_insertionSort cardLE cs)
    (List.sorted_insertionSort cardLE cs')

/-- C10: classification is invariant under reordering of its input —
both classifiers sort the cards by (rank, suit) first and otherwise
consult only the input's length, so permuted inputs produce identical
results (type, strength key and sorted member list alike). -/
theorem validateCombination_perm_invariant (cs cs' : List Card) (h : cs.Perm cs') :
    validateCombination cs = validateCombination cs' ∧
    validateCombinationGL cs = validateCombinationGL cs' := by
  have hlen := h.length_eq
  have hsort := sortCards_eq_of_perm h
  unfold validateCombination validateCombinationGL
  rw [hlen, hsort]
  exact ⟨rfl, rfl⟩

theorem validateCombination_perm_invariant_witness :
    validateCombination [⟨Rank.r4, Suit.spade⟩, ⟨Rank.r4, Suit.club⟩] =
      validateCombination [⟨Rank.r4, Suit.club⟩, ⟨Rank.r4, Suit.spade⟩] ∧
    validateCombinationGL [⟨Rank.r4, Suit.spade⟩, ⟨Rank.r4, Suit.club⟩] =
      validateCombinationGL [⟨Rank.r4, Suit.club⟩, ⟨Rank.r4, Suit.spade⟩] :=
  validateCombination_perm_invariant
    [⟨Rank.r4, Suit.spade⟩, ⟨Rank.r4, Suit.club⟩]
    [⟨Rank.r4, Suit.club⟩, ⟨Rank.r4, Suit.spade⟩] (by decide)

theorem containsTwo_sortCards (cs : List Card) :
    containsTwo (sortCards cs) = containsTwo cs := by
  unfold containsTwo
  have hperm := List.perm_insertionSort cardLE cs
  rw [Bool.eq_iff_iff]
  simp only [List.any_eq_true]
  constructor
  · rintro ⟨c, hc, hr⟩; exact ⟨c, hperm.mem_iff.mp hc, hr⟩
  · rintro ⟨c, hc, hr⟩; exact ⟨c, hperm.mem_iff.mpr hc, hr⟩

theorem consecutive_not_allSame {l : List Card} (h : isConsecutiveCards l = true)
    (hl : 2 ≤ l.length) : allSameRank l = false := by
  match l with
  | [] => simp at hl
  | [_] => simp at hl
  | a :: b :: rest =>
    unfold isConsecutiveCards at h
    rw [Bool.and_eq_true] at h
    have hb : cardRankValue b = cardRankValue a + 1 := by
      have := h.1; simpa using this
    unfold allSameRank
    simp only [List.head?_cons]
    rw [List.all_eq_false]
    refine ⟨b, by simp, ?_⟩
    simp only [decide_eq_true_eq]  -- strip the decide
    omega

/-- C5: a set of three or more cards containing a "2" is never
classified as a straight (it is invalid unless it is a triple or quad
of "2"s), while three or more cards whose sorted ranks are strictly
consecutive and contain no "2" classify as a straight whose strength
key combines the highest member's rank and suit. -/
theorem straight_classification :
    (∀ cs comb, 3 ≤ cs.length → containsTwo cs = true →
      validateCombination cs = some comb → comb.type ≠ CType.straight) ∧
    (∀ cs, 3 ≤ cs.length → containsTwo cs = false →
      isConsecutiveCards (sortCards cs) = true →
      ∃ hc, (sortCards cs).getLast? = some hc ∧
        validateCombination cs = some
          { type := CType.straight
            cards := sortCards cs
            rank := cardRankValue hc * 10 + cardSuitValue hc
            length := cs.length
            power := none }) := by
  constructor
  · intro cs comb h3 h2 hval
    have hct : containsTwo (sortCards cs) = true := by
      rw [containsTwo_sortCards]; exact h2
    unfold validateCombination vAux at hval
    rw [if_neg (by omega), if_neg (by omega),
      if_neg (fun h => absurd h.1 (by omega))] at hval
    by_cases ht3 : cs.length = 3 ∧ allSameRank (sortCards cs) = true
    · rw [if_pos ht3] at hval
      cases hh : (sortCards cs).head? with
      | some c0 => rw [hh] at hval; injection hval with hval; rw [← hval]; simp
      | none => rw [hh] at hval; exact Option.noConfusion hval
    · rw [if_neg ht3] at hval
      by_cases ht4 : cs.length = 4 ∧ allSameRank (sortCards cs) = true
      · rw [if_pos ht4] at hval
        cases hh : (sortCards cs).head? with
        | some c0 => rw [hh] at hval; injection hval with hval; rw [← hval]; simp
        | none => rw [hh] at hval; exact Option.noConfusion hval
      · rw [if_neg ht4, if_pos h3, if_pos hct] at hval
        exact Option.noConfusion hval
  · intro cs h3 h2 hcons
    have hlen : (sortCards cs).length = cs.length :=
      (List.perm_insertionSort cardLE cs).length_eq
    have hge2 : 2 ≤ (sortCards cs).length := by omega
    have hsame := consecutive_not_allSame hcons hge2
    have hct : containsTwo (sortCards cs) = false := by
      rw [containsTwo_sortCards]; exact h2
    have hne : sortCards cs ≠ [] := by
      intro hnil; rw [hnil] at hlen; simp at hlen; omega
    obtain ⟨hc, hhc⟩ := Option.isSome_iff_exists.mp
      (List.getLast?_isSome.mpr hne)
    refine ⟨hc, hhc, ?_⟩
    unfold validateCombination vAux
    rw [if_neg (by omega), if_neg (by omega),
      if_neg (fun h => absurd h.1 (by omega)),
      if_neg (fun h => Bool.noConfusion (hsame ▸ h.2)),
      if_neg (fun h => Bool.noConfusion (hsame ▸ h.2)),
      if_pos h3, if_neg (by simp [hct]), if_pos hcons, hhc]

theorem straight_classification_witness :
    ((validateCombination [⟨Rank.r2, Suit.spade⟩, ⟨Rank.r2, Suit.club⟩,
        ⟨Rank.r2, Suit.diamond⟩]).get (by decide)).type ≠ CType.straight ∧
    validateCombination [⟨Rank.r3, Suit.spade⟩, ⟨Rank.r4, Suit.spade⟩,
        ⟨Rank.r5, Suit.spade⟩] = some
      { type := CType.straight
        cards := [⟨Rank.r3, Suit.spade⟩, ⟨Rank.r4, Suit.spade⟩, ⟨Rank.r5, Suit.spade⟩]
        rank := 31
        length := 3
        power := none } := by
  constructor
  · have h := straight_classification.1
      [⟨Rank.r2, Suit.spade⟩, ⟨Rank.r2, Suit.club⟩, ⟨Rank.r2, Suit.diamond⟩]
      ((validateCombination [⟨Rank.r2, Suit.spade⟩, ⟨Rank.r2, Suit.club⟩,
        ⟨Rank.r2, Suit.diamond⟩]).get (by decide))
      (by decide) (by decide) (by rw [Option.some_get])
    exact h
  · obtain ⟨hc, hhc, hval⟩ := straight_classification.2
      [⟨Rank.r3, Suit.spade⟩, ⟨Rank.r4, Suit.spade⟩, ⟨Rank.r5, Suit.spade⟩]
      (by decide) (by decide) (by decide)
    have hhc' : hc = ⟨Rank.r5, Suit.spade⟩ := by
      have : (sortCards [⟨Rank.r3, Suit.spade⟩, ⟨Rank.r4, Suit.spade⟩,
          ⟨Rank.r5, Suit.spade⟩]).getLast? = some (⟨Rank.r5, Suit.spade⟩ : Card) := by decide
      rw [this] at hhc
      exact (Option.some.inj hhc).symm
    rw [hhc'] at hval
    exact hval

theorem vGL_shape (cs : List Card) (comb : Combination)
    (hval : validateCombinationGL cs = some comb) :
    comb.type ≠ CType.four_of_kind ∧
      (comb.type = CType.single → comb.cards.length = 1) := by
  have hlen : (sortCards cs).length = cs.length :=
    (List.perm_insertionSort cardLE cs).length_eq
  unfold validateCombinationGL vAuxGL at hval
  by_cases h0 : cs.length = 0
  · rw [if_pos h0] at hval; exact Option.noConfusion hval
  rw [if_neg h0] at hval
  by_cases h1 : cs.length = 1
  · rw [if_pos h1] at hval
    cases hh : (sortCards cs).head? with
    | some c0 =>
      rw [hh] at hval
      injection hval with hval
      rw [← hval]
      exact ⟨by simp, fun _ => by simpa using hlen.trans h1⟩
    | none => rw [hh] at hval; exact Option.noConfusion hval
  rw [if_neg h1] at hval
  by_cases h2 : cs.length = 2 ∧ allSameRank (sortCards cs) = true
  · rw [if_pos h2] at hval
    split at hval
    · injection hval with hval; rw [← hval]; simp
    · exact Option.noConfusion hval
  rw [if_neg h2] at hval
  by_cases h3 : cs.length = 3 ∧ allSameRank (sortCards cs) = true
  · rw [if_pos h3] at hval
    cases hh : (sortCards cs).head? with
    | some c0 => rw [hh] at hval; injection hval with hval; rw [← hval]; simp
    | none => rw [hh] at hval; exact Option.noConfusion hval
  rw [if_neg h3] at hval
  by_cases h4 : cs.length = 4 ∧ allSameRank (sortCards cs) = true
  · rw [if_pos h4] at hval
    cases hh : (sortCards cs).head? with
    | some c0 => rw [hh] at hval; injection hval with hval; rw [← hval]; simp
    | none => rw [hh] at hval; exact Option.noConfusion hval
  rw [if_neg h4] at hval
  by_cases h5 : cs.length = 4 ∧ hasFourGroup (sortCards cs) = true
  · -- a rank group of size 4 among 4 cards means all ranks equal,
    -- which the quad branch above already caught: contradiction
    exfalso
    obtain ⟨h5a, h5b⟩ := h5
    unfold hasFourGroup at h5b
    rw [List.any_eq_true] at h5b
    obtain ⟨r, _, hrcnt⟩ := h5b
    rw [decide_eq_true_eq] at hrcnt
    have hslen : (sortCards cs).length = 4 := hlen.trans h5a
    have hall : ∀ x ∈ sortCards cs, cardRankValue x = r := by
      intro x hx
      have hcl : ((sortCards cs).countP (fun c => decide (cardRankValue c = r))) =
          (sortCards cs).length := by rw [hslen]; exact hrcnt
      have := List.countP_eq_length.mp hcl x hx
      exact of_decide_eq_true this
    apply h4
    refine ⟨h5a, ?_⟩
    unfold allSameRank
    cases hsort : sortCards cs with
    | nil => rw [hsort] at hslen; simp at hslen
    | cons c0 rest =>
      simp only [List.head?_cons, List.all_eq_true]
      intro x hx
      rw [decide_eq_true_eq]
      rw [hall x (hsort ▸ hx), hall c0 (hsort ▸ List.mem_cons_self c0 rest)]
  rw [if_neg h5] at hval
  by_cases h6 : cs.length = 6 ∧ (pairRanksGL (sortCards cs)).length = 3 ∧
      isConsecutiveNat (pairRanksGL (sortCards cs)) = true
  · rw [if_pos h6] at hval
    cases hh : (pairRanksGL (sortCards cs)).getLast? with
    | some hr => rw [hh] at hval; injection hval with hval; rw [← hval]; simp
    | none => rw [hh] at hval; exact Option.noConfusion hval
  rw [if_neg h6] at hval
  by_cases h7 : cs.length = 8 ∧ (pairRanksGL (sortCards cs)).length = 4 ∧
      isConsecutiveNat (pairRanksGL (sortCards cs)) = true
  · rw [if_pos h7] at hval
    cases hh : (pairRanksGL (sortCards cs)).getLast? with
    | some hr => rw [hh] at hval; injection hval with hval; rw [← hval]; simp
    | none => rw [hh] at hval; exact Option.noConfusion hval
  rw [if_neg h7] at hval
  by_cases h8 : 3 ≤ cs.length
  · rw [if_pos h8] at hval
    by_cases h9 : containsTwo (sortCards cs) = true
    · rw [if_pos h9] at hval; exact Option.noConfusion hval
    rw [if_neg h9] at hval
    by_cases h10 : isConsecutiveCards (sortCards cs) = true
    · rw [if_pos h10] at hval
      cases hh : (sortCards cs).getLast? with
      | some hcard => rw [hh] at hval; injection hval with hval; rw [← hval]; simp
      | none => rw [hh] at hval; exact Option.noConfusion hval
    · rw [if_neg h10] at hval; exact Option.noConfusion hval
  · rw [if_neg h8] at hval; exact Option.noConfusion hval

theorem isSingleTwo_type {c : Combination} (h : isSingleTwo c = true) :
    c.type = CType.single := by
  unfold isSingleTwo at h
  rw [Bool.and_eq_true] at h
  exact of_decide_eq_true h.1

/-- C1 (amended): among combinations produced by the `gameLogic.js`
classifier, every three-pairs-run, four-pairs-run or quad bomb beats a
tabled single "2", but these are not the only cross-type beats: a
cross-type beat happens exactly when either the tabled combination is a
single "2" and the new one is a three-pairs-run, four-pairs-run or
quad, or the new combination is a four-pairs-run played over a tabled
three-pairs-run (the special-combination power order). -/
theorem canBeatGL_cross_type (cs1 cs2 : List Card) (n c : Combination)
    (hn : validateCombinationGL cs1 = some n) (hc : validateCombinationGL cs2 = some c)
    (hne : n.type ≠ c.type) :
    canBeatCombinationGL n (some c) = true ↔
      (isSingleTwo c = true ∧
        (n.type = CType.three_pairs ∨ n.type = CType.four_pairs ∨ n.type = CType.quad)) ∨
      (n.type = CType.four_pairs ∧ c.type = CType.three_pairs) := by
  have hnf := (vGL_shape cs1 n hn).1
  have hcf := (vGL_shape cs2 c hc).1
  have hcs := (vGL_shape cs2 c hc).2
  unfold canBeatCombinationGL
  by_cases hb : isSingleTwo c = true
  · have hct := isSingleTwo_type hb
    have hclen : c.cards.length = 1 := hcs hct
    cases hnt : n.type <;>
      simp_all [compareSpecialCombinations, isSpecialCombination, powerOrder]
  · rw [Bool.not_eq_true] at hb
    cases hnt : n.type <;> cases hct : c.type <;>
      simp_all [compareSpecialCombinations, isSpecialCombination, powerOrder]

theorem canBeatGL_cross_type_witness :
    canBeatCombinationGL
      { type := CType.three_pairs
        cards := [⟨Rank.r3, Suit.diamond⟩, ⟨Rank.r3, Suit.heart⟩,
                  ⟨Rank.r4, Suit.diamond⟩, ⟨Rank.r4, Suit.heart⟩,
                  ⟨Rank.r5, Suit.diamond⟩, ⟨Rank.r5, Suit.heart⟩]
        rank := 31, length := 3, power := some 1 }
      (some { type := CType.single
              cards := [⟨Rank.r2, Suit.heart⟩]
              rank := 134, length := 1, power := none }) = true := by
  have h := canBeatGL_cross_type
    [⟨Rank.r3, Suit.diamond⟩, ⟨Rank.r3, Suit.heart⟩,
     ⟨Rank.r4, Suit.diamond⟩, ⟨Rank.r4, Suit.heart⟩,
     ⟨Rank.r5, Suit.diamond⟩, ⟨Rank.r5, Suit.heart⟩]
    [⟨Rank.r2, Suit.heart⟩]
    { type := CType.three_pairs
      cards := [⟨Rank.r3, Suit.diamond⟩, ⟨Rank.r3, Suit.heart⟩,
                ⟨Rank.r4, Suit.diamond⟩, ⟨Rank.r4, Suit.heart⟩,
                ⟨Rank.r5, Suit.diamond⟩, ⟨Rank.r5, Suit.heart⟩]
      rank := 31, length := 3, power := some 1 }
    { type := CType.single
      cards := [⟨Rank.r2, Suit.heart⟩]
      rank := 134, length := 1, power := none }
    (by decide) (by decide) (by decide)
  exact h.mpr (Or.inl (by decide))

/-- C1 counterexample: a classified four-pairs-run beats a classified
three-pairs-run although their types differ and the tabled combination
is not a single "2" — so the single-"2" exceptions are not the only
cross-type beats. -/
theorem canBeatGL_cross_type_cex :
    validateCombinationGL
      [⟨Rank.r3, Suit.spade⟩, ⟨Rank.r3, Suit.club⟩, ⟨Rank.r4, Suit.spade⟩,
       ⟨Rank.r4, Suit.club⟩, ⟨Rank.r5, Suit.spade⟩, ⟨Rank.r5, Suit.club⟩,
       ⟨Rank.r6, Suit.spade⟩, ⟨Rank.r6, Suit.club⟩] = some
      { type := CType.four_pairs
        cards := [⟨Rank.r3, Suit.spade⟩, ⟨Rank.r3, Suit.club⟩, ⟨Rank.r4, Suit.spade⟩,
                  ⟨Rank.r4, Suit.club⟩, ⟨Rank.r5, Suit.spade⟩, ⟨Rank.r5, Suit.club⟩,
                  ⟨Rank.r6, Suit.spade⟩, ⟨Rank.r6, Suit.club⟩]
        rank := 42, length := 4, power := some 3 } ∧
    validateCombinationGL
      [⟨Rank.r3, Suit.diamond⟩, ⟨Rank.r3, Suit.heart⟩, ⟨Rank.r4, Suit.diamond⟩,
       ⟨Rank.r4, Suit.heart⟩, ⟨Rank.r5, Suit.diamond⟩, ⟨Rank.r5, Suit.heart⟩] = some
      { type := CType.three_pairs
        cards := [⟨Rank.r3, Suit.diamond⟩, ⟨Rank.r3, Suit.heart⟩, ⟨Rank.r4, Suit.diamond⟩,
                  ⟨Rank.r4, Suit.heart⟩, ⟨Rank.r5, Suit.diamond⟩, ⟨Rank.r5, Suit.heart⟩]
        rank := 31, length := 3, power := some 1 } ∧
    CType.four_pairs ≠ CType.three_pairs ∧
    isSingleTwo
      { type := CType.three_pairs
        cards := [⟨Rank.r3, Suit.diamond⟩, ⟨Rank.r3, Suit.heart⟩, ⟨Rank.r4, Suit.diamond⟩,
                  ⟨Rank.r4, Suit.heart⟩, ⟨Rank.r5, Suit.diamond⟩, ⟨Rank.r5, Suit.heart⟩]
        rank := 31, length := 3, power := some 1 } = false ∧
    canBeatCombinationGL
      { type := CType.four_pairs
        cards := [⟨Rank.r3, Suit.spade⟩, ⟨Rank.r3, Suit.club⟩, ⟨Rank.r4, Suit.spade⟩,
                  ⟨Rank.r4, Suit.club⟩, ⟨Rank.r5, Suit.spade⟩, ⟨Rank.r5, Suit.club⟩,
                  ⟨Rank.r6, Suit.spade⟩, ⟨Rank.r6, Suit.club⟩]
        rank := 42, length := 4, power := some 3 }
      (some { type := CType.three_pairs
              cards := [⟨Rank.r3, Suit.diamond⟩, ⟨Rank.r3, Suit.heart⟩, ⟨Rank.r4, Suit.diamond⟩,
                        ⟨Rank.r4, Suit.heart⟩, ⟨Rank.r5, Suit.diamond⟩, ⟨Rank.r5, Suit.heart⟩]
              rank := 31, length := 3, power := some 1 }) = true := by
  refine ⟨?_, ?_, ?_, ?_, ?_⟩ <;> decide

theorem take_drop_subset_take (l : List Card) (m n : Nat) :
    (l.drop m).take n ⊆ l.take (m + n) := by
  intro x hx
  have h : (l.take (m + n)).drop m = (l.drop m).take n := by
    rw [List.drop_take]
    congr 1
    omega
  rw [← h] at hx
  exact List.drop_subset _ _ hx

theorem slice_disjoint {deck : List Card} (hnd : deck.Nodup) {i j : Nat} (hij : i < j) :
    List.Disjoint ((deck.drop (13 * i)).take 13) ((deck.drop (13 * j)).take 13) := by
  have h1 : (deck.drop (13 * i)).take 13 ⊆ deck.take (13 * i + 13) :=
    take_drop_subset_take deck (13 * i) 13
  have h2 : (deck.drop (13 * j)).take 13 ⊆ deck.drop (13 * j) := List.take_subset _ _
  have h3 : List.Disjoint (deck.take (13 * i + 13)) (deck.drop (13 * j)) :=
    List.disjoint_take_drop hnd (by omega)
  exact List.disjoint_of_subset_left h1 (List.disjoint_of_subset_right h2 h3)

theorem dealToConnected_mem (deck : List Card) :
    ∀ (ps : List Player) (m : Nat) (q : Player), q ∈ dealToConnected deck ps m →
      q.connected = true →
      ∃ j, m ≤ j ∧ j < m + (ps.filter (fun p => p.connected)).length ∧
        q.hand = (deck.drop (13 * j)).take 13 := by
  intro ps
  induction ps with
  | nil => intro m q hq; simp [dealToConnected] at hq
  | cons p ps ih =>
    intro m q hq hconn
    unfold dealToConnected at hq
    by_cases hp : p.connected
    · rw [if_pos hp] at hq
      rcases List.mem_cons.mp hq with rfl | hq'
      · exact ⟨m, le_rfl, by simp [List.filter_cons, hp], rfl⟩
      · obtain ⟨j, hj1, hj2, hj3⟩ := ih (m + 1) q hq' hconn
        exact ⟨j, by omega, by simp [List.filter_cons, hp] at hj2 ⊢; omega, hj3⟩
    · rw [if_neg hp] at hq
      rcases List.mem_cons.mp hq with rfl | hq'
      · rw [hconn] at hp; exact absurd rfl hp
      · obtain ⟨j, hj1, hj2, hj3⟩ := ih m q hq' hconn
        exact ⟨j, hj1, by simp [List.filter_cons, hp] at hj2 ⊢; omega, hj3⟩

theorem dealToConnected_pairwise (deck : List Card) (hnd : deck.Nodup) :
    ∀ (ps : List Player) (m : Nat),
      List.Pairwise (fun a b => a.connected = true → b.connected = true →
        a.hand.Disjoint b.hand) (dealToConnected deck ps m) := by
  intro ps
  induction ps with
  | nil => intro m; simp [dealToConnected]
  | cons p ps ih =>
    intro m
    unfold dealToConnected
    by_cases hp : p.connected
    · rw [if_pos hp]
      refine List.Pairwise.cons ?_ (ih (m + 1))
      intro b hb _ hbconn
      obtain ⟨j, hj1, _, hj3⟩ := dealToConnected_mem deck ps (m + 1) b hb hbconn
      rw [hj3]
      exact slice_disjoint hnd (by omega)
    · rw [if_neg hp]
      refine List.Pairwise.cons ?_ (ih m)
      intro b _ hpc _
      rw [hpc] at hp
      exact absurd rfl hp

/-- C6: dealing from any permutation of the generated deck to a room
with between 2 and 4 connected players gives each connected player a
hand of exactly 13 cards drawn from the deck, with no card in two
hands; the deck holds exactly one card of every (rank, suit) pair, and
the cards beyond the first 13·k are dealt to nobody. -/
theorem dealCards_spec (deck : List Card) (room : Room)
    (hperm : deck.Perm generateDeck)
    (hk2 : 2 ≤ (room.players.filter (fun p => p.connected)).length)
    (hk4 : (room.players.filter (fun p => p.connected)).length ≤ 4) :
    deck.length = 52 ∧ deck.Nodup ∧ (∀ card : Card, deck.count card = 1) ∧
    (∀ q ∈ (dealCards deck room).players, q.connected = true →
      q.hand.length = 13 ∧ q.hand ⊆ deck) ∧
    List.Pairwise (fun a b => a.connected = true → b.connected = true →
      a.hand.Disjoint b.hand) (dealCards deck room).players ∧
    (∀ x ∈ deck.drop (13 * (room.players.filter (fun p => p.connected)).length),
      ∀ q ∈ (dealCards deck room).players, q.connected = true → x ∉ q.hand) := by
  have h52 : deck.length = 52 := by
    rw [hperm.length_eq]; rfl
  have hnd : deck.Nodup := hperm.nodup_iff.mpr (by decide)
  refine ⟨h52, hnd, ?_, ?_, ?_, ?_⟩
  · intro card
    rw [hperm.count_eq]
    revert card
    decide
  · intro q hq hconn
    obtain ⟨j, _, hj2, hj3⟩ :=
      dealToConnected_mem deck room.players 0 q hq hconn
    constructor
    · rw [hj3, List.length_take, List.length_drop, h52]
      omega
    · rw [hj3]
      intro x hx
      exact List.drop_subset _ _ (List.take_subset _ _ hx)
  · exact dealToConnected_pairwise deck hnd room.players 0
  · intro x hx q hq hconn
    obtain ⟨j, _, hj2, hj3⟩ :=
      dealToConnected_mem deck room.players 0 q hq hconn
    rw [hj3]
    intro hxq
    have h1 : x ∈ deck.take (13 * j + 13) := take_drop_subset_take deck (13 * j) 13 hxq
    have h2 : x ∈ deck.take (13 * (room.players.filter (fun p => p.connected)).length) := by
      have heq : deck.take (13 * j + 13) =
          (deck.take (13 * (room.players.filter (fun p => p.connected)).length)).take
            (13 * j + 13) := by
        rw [List.take_take]
        congr 1
        omega
      rw [heq] at h1
      exact List.take_subset _ _ h1
    exact absurd hx (List.disjoint_take_drop hnd le_rfl h2)

theorem dealCards_spec_witness :
    generateDeck.length = 52 ∧ generateDeck.Nodup := by
  have h := dealCards_spec generateDeck
    { players := [⟨"A", [], true, false⟩, ⟨"B", [], true, false⟩]
      pile := [], turn := none, currentCombination := none, passes := []
      lastPlayer := none, round := 1, gameStarted := true, winner := none
      winnerLastCards := none, deckShuffled := true }
    (List.Perm.refl _) (by decide) (by decide)
  exact ⟨h.1, h.2.1⟩

/-- C3 counterexample: a non-round-ending pass by "A" hands the turn
to the disconnected "B" (who is not in the passed-set) even though the
connected, unpassed "C" sits forward of it — the advance does not skip
disconnected seats. -/
theorem advanceTurn_ignores_connectivity_cex :
    (humanPass c3Room "A").turn = some "B" ∧
    (c3Room.players.get? 1).map Player.connected = some false ∧
    ((c3Room.players.get? 1).map (fun p => c3Room.passes.contains p.id)) = some false ∧
    (c3Room.players.get? 2).map Player.connected = some true ∧
    ((c3Room.players.get? 2).map (fun p => c3Room.passes.contains p.id)) = some false := by
  refine ⟨?_, ?_, ?_, ?_, ?_⟩ <;> rfl

theorem advanceTurnPH_first_unpassed_witness :
    advanceTurnPH c3Room "A" = { c3Room with turn := some "B" } := by
  have h := (advanceTurnPH_first_unpassed c3Room "A" 0 rfl).1 1
    ⟨"B", [⟨Rank.r4, Suit.spade⟩], false, false⟩ le_rfl (by decide) rfl rfl
    (fun m q hm1 hm2 _ => absurd hm2 (by omega))
  exact h
